import Mathlib

/-!
Verification of the `gdwg::graph` general directed weighted graph container
(`src/gdwg_graph.h`), shallowly embedded at node type `N = Int` and weight
type `E = Int`.  The C++ `std::set<N>` node store is modelled as a strictly
ascending `List Int`; the `std::vector<std::unique_ptr<edge<N,E>>>` edge
store is a `List Edge`.  Operations that throw `std::runtime_error` are
modelled in `Except String`; an `Except.error` result carries the exact
message string of the source and, being a pure function result, leaves the
input graph untouched.
-/

namespace gdwg

/-- The closed edge variant: `unweighted_edge` and `weighted_edge` from the
source, tag-distinguished (the C++ virtual hierarchy has exactly these two
concrete classes). -/
inductive Edge where
  | unweighted_edge (src dst : Int)
  | weighted_edge (src dst : Int) (weight : Int)
deriving DecidableEq

/-- `edge::src` (public data member of the base class). -/
def Edge.src : Edge → Int
  | .unweighted_edge s _ => s
  | .weighted_edge s _ _ => s

/-- `edge::dst` (public data member of the base class). -/
def Edge.dst : Edge → Int
  | .unweighted_edge _ d => d
  | .weighted_edge _ d _ => d

/-- `is_weighted()`: `true` on `weighted_edge`, `false` on `unweighted_edge`. -/
def Edge.is_weighted : Edge → Bool
  | .unweighted_edge _ _ => false
  | .weighted_edge _ _ _ => true

/-- `get_weight()`: `std::nullopt` for unweighted, the weight for weighted. -/
def Edge.get_weight : Edge → Option Int
  | .unweighted_edge _ _ => none
  | .weighted_edge _ _ w => some w

/-- `print_edge()`: `"src -> dst | U"` or `"src -> dst | W | weight"`. -/
def Edge.print_edge : Edge → String
  | .unweighted_edge s d => toString s ++ " -> " ++ toString d ++ " | U"
  | .weighted_edge s d w => toString s ++ " -> " ++ toString d ++ " | W | " ++ toString w

/-- `std::optional<E>::operator<`: an empty optional is less than an engaged
one; two engaged optionals compare by value.  (`edge_compare` only reaches
this with both sides engaged.) -/
def optLt : Option Int → Option Int → Bool
  | none, some _ => true
  | some a, some b => decide (a < b)
  | _, none => false

/-- `graph::edge_compare`: strict ordering on edges by src, then dst, then
unweighted-before-weighted, then weight. -/
def edge_compare (lhs rhs : Edge) : Bool :=
  if lhs.src ≠ rhs.src then decide (lhs.src < rhs.src)
  else if lhs.dst ≠ rhs.dst then decide (lhs.dst < rhs.dst)
  else if lhs.is_weighted ≠ rhs.is_weighted then !lhs.is_weighted
  else if lhs.is_weighted && rhs.is_weighted then optLt lhs.get_weight rhs.get_weight
  else false

/-- The non-strict companion of `edge_compare`: `a` need not come after `b`.
`std::sort (edge_compare)` leaves the store sorted with respect to it. -/
def edge_le (a b : Edge) : Prop := edge_compare b a = false

instance : DecidableRel edge_le := fun a b =>
  inferInstanceAs (Decidable (edge_compare b a = false))

/-- Sort key realising `edge_compare` inside a lexicographic linear order
(weight slot of an unweighted edge padded with `0`; the `Bool` tag slot,
`false < true`, already separates the variants). -/
def Edge.key : Edge → Lex (Int × Lex (Int × Lex (Bool × Int)))
  | .unweighted_edge s d => toLex (s, toLex (d, toLex (false, 0)))
  | .weighted_edge s d w => toLex (s, toLex (d, toLex (true, w)))

theorem edge_compare_iff {a b : Edge} : edge_compare a b = true ↔ a.key < b.key := by
  cases a <;> cases b <;>
    simp only [edge_compare, Edge.key, Edge.src, Edge.dst, Edge.is_weighted, Edge.get_weight,
      optLt, Prod.Lex.lt_iff, Bool.lt_iff] <;>
    split_ifs <;>
    simp_all

theorem edge_key_inj {a b : Edge} (h : a.key = b.key) : a = b := by
  cases a <;> cases b <;>
    simp only [Edge.key, toLex_inj, Prod.mk.injEq] at h <;> simp_all

theorem edge_le_iff {a b : Edge} : edge_le a b ↔ a.key ≤ b.key := by
  rw [edge_le, ← Bool.not_eq_true, ← not_lt]
  exact not_congr edge_compare_iff

instance : IsTotal Edge edge_le :=
  ⟨fun a b => by rw [edge_le_iff, edge_le_iff]; exact le_total _ _⟩

instance : IsTrans Edge edge_le :=
  ⟨fun a b c hab hbc => by
    rw [edge_le_iff] at hab hbc ⊢; exact le_trans hab hbc⟩

theorem edge_le_antisymm {a b : Edge} (h1 : edge_le a b) (h2 : edge_le b a) : a = b := by
  rw [edge_le_iff] at h1 h2
  exact edge_key_inj (le_antisymm h1 h2)

theorem edge_le_total (a b : Edge) : edge_le a b ∨ edge_le b a := IsTotal.total a b

/-- `std::sort(_edges.begin(), _edges.end(), edge_compare)`.  `edge_compare`
is a strict weak order whose incomparability classes are singletons (ties
are structural equality), so any sorting algorithm yields this same list;
insertion sort is used as the model. -/
def sortEdges (es : List Edge) : List Edge := es.insertionSort edge_le

theorem sortEdges_sorted (es : List Edge) : (sortEdges es).Sorted edge_le :=
  List.sorted_insertionSort edge_le es

theorem sortEdges_perm (es : List Edge) : List.Perm (sortEdges es) es :=
  List.perm_insertionSort edge_le es

theorem mem_sortEdges {e : Edge} {es : List Edge} : e ∈ sortEdges es ↔ e ∈ es :=
  (sortEdges_perm es).mem_iff

/-- `std::set<N>::insert` on the strictly ascending list model: already
present leaves the set unchanged, otherwise the value goes into its ordered
position. -/
def nodeInsert (v : Int) : List Int → List Int
  | [] => [v]
  | x :: xs =>
    if v < x then v :: x :: xs
    else if v = x then x :: xs
    else x :: nodeInsert v xs

/-- `std::set<N>::erase(value)` on the list model. -/
def nodeErase (v : Int) (s : List Int) : List Int := s.filter (fun x => x ≠ v)

theorem mem_nodeInsert {x v : Int} : ∀ {s : List Int}, x ∈ nodeInsert v s ↔ x = v ∨ x ∈ s
  | [] => by simp [nodeInsert]
  | y :: ys => by
    simp only [nodeInsert]
    split_ifs with h1 h2
    · simp
    · subst h2; simp
    · simp [mem_nodeInsert (s := ys)]
      tauto

theorem mem_nodeErase {x v : Int} {s : List Int} : x ∈ nodeErase v s ↔ x ∈ s ∧ x ≠ v := by
  simp [nodeErase]

theorem sorted_nodeInsert {v : Int} :
    ∀ {s : List Int}, s.Sorted (· < ·) → (nodeInsert v s).Sorted (· < ·)
  | [], _ => by simp [nodeInsert]
  | x :: xs, h => by
    simp only [nodeInsert]
    split_ifs with h1 h2
    · refine List.sorted_cons.mpr ⟨?_, h⟩
      intro b hb
      rcases List.mem_cons.mp hb with rfl | hb
      · exact h1
      · exact lt_trans h1 (List.rel_of_sorted_cons h b hb)
    · exact h
    · have hx : x < v := by omega
      refine List.sorted_cons.mpr ⟨?_, sorted_nodeInsert h.of_cons⟩
      intro b hb
      rcases mem_nodeInsert.mp hb with rfl | hb
      · exact hx
      · exact List.rel_of_sorted_cons h b hb

theorem sorted_nodeErase {v : Int} {s : List Int} (h : s.Sorted (· < ·)) :
    (nodeErase v s).Sorted (· < ·) :=
  h.filter _

/-- The graph: `std::set<N> _nodes` as a strictly ascending list and
`std::vector<std::unique_ptr<edge<N,E>>> _edges` as a list of edge values. -/
structure Graph where
  _nodes : List Int
  _edges : List Edge
deriving DecidableEq

/-- `graph::is_node(value)`: `_nodes.find(value) != _nodes.end()`. -/
def is_node (g : Graph) (value : Int) : Bool := g._nodes.contains value

/-- `graph::empty()`: `_nodes.empty() && _edges.empty()`. -/
def Graph.empty (g : Graph) : Bool := g._nodes.isEmpty && g._edges.isEmpty

/-- `graph::insert_node(value)`: `_nodes.insert(value).second`. -/
def insert_node (g : Graph) (value : Int) : Bool × Graph :=
  (!g._nodes.contains value, { g with _nodes := nodeInsert value g._nodes })

/-- The edge record `insert_edge` builds: `weighted_edge` when a weight is
given, `unweighted_edge` otherwise. -/
def mkEdge (src dst : Int) : Option Int → Edge
  | some w => .weighted_edge src dst w
  | none => .unweighted_edge src dst

/-- `graph::insert_edge(src, dst, weight)`. -/
def insert_edge (g : Graph) (src dst : Int) (weight : Option Int) :
    Except String (Bool × Graph) :=
  if !is_node g src || !is_node g dst then
    .error "Cannot call gdwg::graph<N, E>::insert_edge when either src or dst node does not exist"
  else
    let new_edge := mkEdge src dst weight
    if g._edges.any (fun e => e == new_edge) then
      .ok (false, g)
    else
      .ok (true, { g with _edges := sortEdges (g._edges ++ [new_edge]) })

/-- The body of the endpoint-rewriting loop shared by `replace_node` and
`merge_replace_node`: `if (edge->src == old) edge->src = new;
if (edge->dst == old) edge->dst = new;`. -/
def rewrite_endpoints (old_data new_data : Int) : Edge → Edge
  | .unweighted_edge s d =>
    .unweighted_edge (if s = old_data then new_data else s)
      (if d = old_data then new_data else d)
  | .weighted_edge s d w =>
    .weighted_edge (if s = old_data then new_data else s)
      (if d = old_data then new_data else d) w

/-- `graph::replace_node(old_data, new_data)`. -/
def replace_node (g : Graph) (old_data new_data : Int) : Except String (Bool × Graph) :=
  if !is_node g old_data then
    .error "Cannot call gdwg::graph<N, E>::replace_node on a node that doesn't exist"
  else if is_node g new_data then
    .ok (false, g)
  else
    .ok (true,
      { _nodes := nodeInsert new_data (nodeErase old_data g._nodes),
        _edges := g._edges.map (rewrite_endpoints old_data new_data) })

/-- `std::unique` over the edge store: drops each element structurally equal
to its predecessor, keeping the first of every run. -/
def dedupAdjacent : List Edge → List Edge
  | [] => []
  | a :: rest =>
    match rest with
    | [] => [a]
    | b :: _ => if a = b then dedupAdjacent rest else a :: dedupAdjacent rest

/-- `graph::merge_replace_node(old_data, new_data)`: rewrite endpoints, drop
`old_data` from the node store, then sort and `std::unique` the edge store. -/
def merge_replace_node (g : Graph) (old_data new_data : Int) : Except String Graph :=
  if !is_node g old_data || !is_node g new_data then
    .error "Cannot call gdwg::graph<N, E>::merge_replace_node on old or new data if they don't exist in the graph"
  else
    .ok { _nodes := nodeErase old_data g._nodes,
          _edges := dedupAdjacent (sortEdges
            (g._edges.map (rewrite_endpoints old_data new_data))) }

/-- `graph::erase_node(value)`. -/
def erase_node (g : Graph) (value : Int) : Bool × Graph :=
  if !is_node g value then
    (false, g)
  else
    (true,
      { _nodes := nodeErase value g._nodes,
        _edges := g._edges.filter (fun e => !(e.src == value || e.dst == value)) })

/-- The matching predicate of `erase_edge` (and `find`): same src and dst,
and unweighted when no weight is given, weighted with this weight when one
is. -/
def edge_matches (src dst : Int) (weight : Option Int) (e : Edge) : Bool :=
  if e.src == src && e.dst == dst then
    match weight with
    | some _ => e.is_weighted && e.get_weight == weight
    | none => !e.is_weighted
  else false

/-- `graph::erase_edge(src, dst, weight)`: `std::remove_if` + `erase` drops
every matching edge (modelled as a filter); returns whether any was
dropped. -/
def erase_edge (g : Graph) (src dst : Int) (weight : Option Int) :
    Except String (Bool × Graph) :=
  if !is_node g src || !is_node g dst then
    .error "Cannot call gdwg::graph<N, E>::erase_edge on src or dst if they don't exist in the graph"
  else
    let remaining := g._edges.filter (fun e => !edge_matches src dst weight e)
    if remaining.length ≠ g._edges.length then
      .ok (true, { g with _edges := remaining })
    else
      .ok (false, g)

/-- `graph::clear()`. -/
def Graph.clear (_g : Graph) : Graph := { _nodes := [], _edges := [] }

/-- `graph::is_connected(src, dst)`. -/
def is_connected (g : Graph) (src dst : Int) : Except String Bool :=
  if !is_node g src || !is_node g dst then
    .error "Cannot call gdwg::graph<N, E>::is_connected if src or dst node don't exist in the graph"
  else
    .ok (g._edges.any (fun e => e.src == src && e.dst == dst))

/-- `graph::nodes()`: the node store copied out in ascending order. -/
def Graph.nodes (g : Graph) : List Int := g._nodes

/-- `graph::edges(src, dst)`: clones of every edge with this (src, dst),
sorted by `edge_compare`. -/
def Graph.edges (g : Graph) (src dst : Int) : Except String (List Edge) :=
  if !is_node g src || !is_node g dst then
    .error "Cannot call gdwg::graph<N, E>::edges if src or dst node don't exist in the graph"
  else
    .ok (sortEdges (g._edges.filter (fun e => e.src == src && e.dst == dst)))

/-- `graph::connections(src)`: destinations of the outgoing edges of `src`,
collected through a `std::set<N>`. -/
def connections (g : Graph) (src : Int) : Except String (List Int) :=
  if !is_node g src then
    .error "Cannot call gdwg::graph<N, E>::connections if src doesn't exist in the graph"
  else
    .ok (((g._edges.filter (fun e => e.src == src)).map Edge.dst).foldl
      (fun s d => nodeInsert d s) [])

/-- `graph::find(src, dst, weight)`: position of the first matching edge in
the store, or the end position (modelled as the index `std::find_if`
reaches). -/
def Graph.find (g : Graph) (src dst : Int) (weight : Option Int) : Nat :=
  g._edges.findIdx (edge_matches src dst weight)

/-- What dereferencing the iterator at each position of the store yields:
`{from, to, weight?}` snapshots in storage order.  `begin()`/`end()` walk
`_edges` from front to back. -/
def iter_list (g : Graph) : List (Int × Int × Option Int) :=
  g._edges.map (fun e => (e.src, e.dst, e.get_weight))

/-- The unweighted partition built by `operator==`: `(src, dst)` pairs of
the unweighted edges, in storage order. -/
def unweighted_list (es : List Edge) : List (Int × Int) :=
  (es.filter (fun e => !e.is_weighted)).map (fun e => (e.src, e.dst))

/-- The weighted partition built by `operator==`: `(src, dst, weight)`
triples of the weighted edges, in storage order. -/
def weighted_list (es : List Edge) : List (Int × Int × Int) :=
  es.filterMap (fun e =>
    match e with
    | .weighted_edge s d w => some (s, d, w)
    | .unweighted_edge _ _ => none)

/-- `graph::operator==`. -/
def graph_eq (g h : Graph) : Bool :=
  if g._nodes ≠ h._nodes || g._edges.length ≠ h._edges.length then
    false
  else if unweighted_list g._edges ≠ unweighted_list h._edges
      || weighted_list g._edges ≠ weighted_list h._edges then
    false
  else
    true

/-- One node's block in `operator<<`: the label, `" (\n"`, the indented
`print_edge` line of each outgoing unweighted edge then of each outgoing
weighted edge (each group in storage order, as the single pass over
`_edges` pushes them into two vectors), then `")\n"`. -/
def node_block (g : Graph) (node : Int) : String :=
  let unweighted_edges := (g._edges.filter (fun e => e.src == node && !e.is_weighted)).map
    (fun e => "  " ++ e.print_edge ++ "\n")
  let weighted_edges := (g._edges.filter (fun e => e.src == node && e.is_weighted)).map
    (fun e => "  " ++ e.print_edge ++ "\n")
  toString node ++ " (\n" ++ String.join unweighted_edges ++ String.join weighted_edges ++ ")\n"

/-- `operator<<(std::ostream&, graph const&)`: a leading newline, then one
block per node in node-store (ascending) order. -/
def gdwg_print (g : Graph) : String :=
  "\n" ++ String.join (g._nodes.map (node_block g))

/-- The initializer-list constructor `graph(std::initializer_list<N> il) :
_nodes(il)`: the node store absorbs the listed values, the edge store stays
empty. -/
def graph_init_list (il : List Int) : Graph :=
  { _nodes := il.foldl (fun s v => nodeInsert v s) [], _edges := [] }

/-- The range constructor `graph(InputIt first, InputIt last)`: inserts each
value of the range into the node store. -/
def graph_range (range : List Int) : Graph :=
  { _nodes := range.foldl (fun s v => nodeInsert v s) [], _edges := [] }

theorem mem_dedupAdjacent {x : Edge} : ∀ {l : List Edge}, x ∈ dedupAdjacent l ↔ x ∈ l
  | [] => by simp [dedupAdjacent]
  | [_] => by simp [dedupAdjacent]
  | a :: b :: rest => by
    show x ∈ (if a = b then dedupAdjacent (b :: rest) else a :: dedupAdjacent (b :: rest)) ↔
      x ∈ a :: b :: rest
    split_ifs with h
    · subst h
      rw [mem_dedupAdjacent (l := a :: rest)]
      simp
    · rw [List.mem_cons, mem_dedupAdjacent (l := b :: rest)]
      simp

theorem dedupAdjacent_sorted :
    ∀ {l : List Edge}, l.Sorted edge_le → (dedupAdjacent l).Sorted edge_le
  | [], _ => by simp [dedupAdjacent]
  | [_], _ => by simp [dedupAdjacent]
  | a :: b :: rest, h => by
    show List.Sorted edge_le
      (if a = b then dedupAdjacent (b :: rest) else a :: dedupAdjacent (b :: rest))
    split_ifs with hab
    · subst hab
      exact dedupAdjacent_sorted h.of_cons
    · refine List.sorted_cons.mpr ⟨?_, dedupAdjacent_sorted h.of_cons⟩
      intro c hc
      exact List.rel_of_sorted_cons h c (mem_dedupAdjacent.mp hc)

theorem dedupAdjacent_nodup :
    ∀ {l : List Edge}, l.Sorted edge_le → (dedupAdjacent l).Nodup
  | [], _ => by simp [dedupAdjacent]
  | [_], _ => by simp [dedupAdjacent]
  | a :: b :: rest, h => by
    show (if a = b then dedupAdjacent (b :: rest) else a :: dedupAdjacent (b :: rest)).Nodup
    split_ifs with hab
    · subst hab
      exact dedupAdjacent_nodup h.of_cons
    · refine List.nodup_cons.mpr ⟨?_, dedupAdjacent_nodup h.of_cons⟩
      intro hmem
      rcases List.mem_cons.mp (mem_dedupAdjacent.mp hmem) with rfl | hmem'
      · exact hab rfl
      · have h1 : edge_le a b := List.rel_of_sorted_cons h b (List.mem_cons_self b rest)
        have h2 : edge_le b a := List.rel_of_sorted_cons h.of_cons a hmem'
        exact hab (edge_le_antisymm h1 h2)

theorem is_node_iff {g : Graph} {v : Int} : is_node g v = true ↔ v ∈ g._nodes := by
  simp [is_node]

theorem mem_foldl_nodeInsert {v : Int} :
    ∀ (il acc : List Int),
      v ∈ il.foldl (fun s x => nodeInsert x s) acc ↔ v ∈ il ∨ v ∈ acc := by
  intro il
  induction il with
  | nil => simp
  | cons x xs ih =>
    intro acc
    rw [List.foldl_cons, ih]
    simp [mem_nodeInsert]
    tauto

theorem sorted_foldl_nodeInsert :
    ∀ (il acc : List Int), acc.Sorted (· < ·) →
      (il.foldl (fun s x => nodeInsert x s) acc).Sorted (· < ·) := by
  intro il
  induction il with
  | nil => exact fun _ h => h
  | cons x xs ih => exact fun acc h => ih _ (sorted_nodeInsert h)

/-- C10: the initializer-list and range constructors produce a graph whose
node store holds exactly the distinct values of the given list (duplicates
collapsed) and whose edge store is empty; they never create edges. -/
theorem C10_constructors_nodes_only (il : List Int) :
    (graph_init_list il)._edges = [] ∧
    (graph_range il)._edges = [] ∧
    (∀ v, v ∈ (graph_init_list il)._nodes ↔ v ∈ il) ∧
    (∀ v, v ∈ (graph_range il)._nodes ↔ v ∈ il) ∧
    (graph_init_list il)._nodes.Nodup ∧
    (graph_range il)._nodes.Nodup := by
  have hmem : ∀ v, v ∈ il.foldl (fun s x => nodeInsert x s) [] ↔ v ∈ il := by
    intro v
    rw [mem_foldl_nodeInsert]
    simp
  have hnodup : (il.foldl (fun s x => nodeInsert x s) []).Nodup :=
    (sorted_foldl_nodeInsert il [] (by simp)).nodup
  exact ⟨rfl, rfl, hmem, hmem, hnodup, hnodup⟩

/-- C7: every operation with a node-existence precondition fails, when that
precondition is violated, with exactly the documented message for the
operation.  The operations are pure state transformers returning
`Except.error msg` in that case, so no mutated graph is produced: the error
precedes any mutation and the caller's graph is unchanged; no partial
mutation followed by failure is possible. -/
theorem C7_missing_node_errors (g : Graph) (a b : Int) (w : Option Int) :
    (¬(is_node g a = true ∧ is_node g b = true) →
      insert_edge g a b w =
        .error "Cannot call gdwg::graph<N, E>::insert_edge when either src or dst node does not exist" ∧
      merge_replace_node g a b =
        .error "Cannot call gdwg::graph<N, E>::merge_replace_node on old or new data if they don't exist in the graph" ∧
      is_connected g a b =
        .error "Cannot call gdwg::graph<N, E>::is_connected if src or dst node don't exist in the graph" ∧
      erase_edge g a b w =
        .error "Cannot call gdwg::graph<N, E>::erase_edge on src or dst if they don't exist in the graph" ∧
      Graph.edges g a b =
        .error "Cannot call gdwg::graph<N, E>::edges if src or dst node don't exist in the graph") ∧
    (is_node g a = false →
      replace_node g a b =
        .error "Cannot call gdwg::graph<N, E>::replace_node on a node that doesn't exist" ∧
      connections g a =
        .error "Cannot call gdwg::graph<N, E>::connections if src doesn't exist in the graph") := by
  constructor
  · intro h
    have hcond : (!is_node g a || !is_node g b) = true := by
      rcases Decidable.not_and_iff_or_not.mp h with h' | h' <;> simp_all
    refine ⟨?_, ?_, ?_, ?_, ?_⟩ <;>
      simp [insert_edge, merge_replace_node, is_connected, erase_edge, Graph.edges, hcond]
  · intro h
    constructor <;> simp [replace_node, connections, h]

/-- Closed witness for C7 at an empty graph and nodes 0, 1. -/
theorem C7_missing_node_errors_witness :
    insert_edge { _nodes := [], _edges := [] } 0 1 none =
      .error "Cannot call gdwg::graph<N, E>::insert_edge when either src or dst node does not exist" ∧
    replace_node { _nodes := [], _edges := [] } 0 1 =
      .error "Cannot call gdwg::graph<N, E>::replace_node on a node that doesn't exist" := by
  have h := C7_missing_node_errors { _nodes := [], _edges := [] } 0 1 none
  exact ⟨(h.1 (by decide)).1, (h.2 (by decide)).1⟩

theorem any_beq_iff {x : Edge} {es : List Edge} :
    es.any (fun e => e == x) = true ↔ x ∈ es := by
  simp [List.any_eq_true]

/-- C2: `insert_edge` errors when either endpoint is missing; returns
`false` leaving the graph unchanged when a structurally equal edge exists;
otherwise inserts the weighted (weight given) or unweighted (no weight)
record, re-sorts the store, and returns `true`.  The result store is a
sorted permutation of the old store plus the new record. -/
theorem C2_insert_edge_correct (g : Graph) (src dst : Int) (w : Option Int) :
    (¬(is_node g src = true ∧ is_node g dst = true) →
      insert_edge g src dst w =
        .error "Cannot call gdwg::graph<N, E>::insert_edge when either src or dst node does not exist") ∧
    (is_node g src = true → is_node g dst = true →
      (mkEdge src dst w ∈ g._edges → insert_edge g src dst w = .ok (false, g)) ∧
      (mkEdge src dst w ∉ g._edges →
        insert_edge g src dst w =
          .ok (true, { g with _edges := sortEdges (g._edges ++ [mkEdge src dst w]) }) ∧
        (sortEdges (g._edges ++ [mkEdge src dst w])).Sorted edge_le ∧
        List.Perm (sortEdges (g._edges ++ [mkEdge src dst w]))
          (g._edges ++ [mkEdge src dst w]))) := by
  constructor
  · intro h
    have hcond : (!is_node g src || !is_node g dst) = true := by
      rcases Decidable.not_and_iff_or_not.mp h with h' | h' <;> simp_all
    simp [insert_edge, hcond]
  · intro hs hd
    have hcond : (!is_node g src || !is_node g dst) = false := by simp [hs, hd]
    constructor
    · intro hmem
      have hany : (g._edges.any fun e => e == mkEdge src dst w) = true :=
        any_beq_iff.mpr hmem
      simp [insert_edge, hcond, hany]
    · intro hmem
      have hany : (g._edges.any fun e => e == mkEdge src dst w) = false := by
        cases hb : (g._edges.any fun e => e == mkEdge src dst w) with
        | false => rfl
        | true => exact absurd (any_beq_iff.mp hb) hmem
      refine ⟨?_, sortEdges_sorted _, sortEdges_perm _⟩
      simp [insert_edge, hcond, hany]

/-- Closed witness for C2: inserting a weighted edge into a two-node graph. -/
theorem C2_insert_edge_correct_witness :
    insert_edge { _nodes := [1, 2], _edges := [] } 1 2 (some 5) =
      .ok (true, { _nodes := [1, 2], _edges := [Edge.weighted_edge 1 2 5] }) :=
  (((C2_insert_edge_correct { _nodes := [1, 2], _edges := [] } 1 2 (some 5)).2
    (by decide) (by decide)).2 (by decide)).1

/-- C4: `replace_node` errors when `old_data` is missing; returns `false`
without mutation when `new_data` is already present; otherwise rewrites
every edge endpoint equal to `old_data` into `new_data`, removes `old_data`
from the node store, adds `new_data`, and returns `true`. -/
theorem C4_replace_node_correct (g : Graph) (old_data new_data : Int) :
    (is_node g old_data = false →
      replace_node g old_data new_data =
        .error "Cannot call gdwg::graph<N, E>::replace_node on a node that doesn't exist") ∧
    (is_node g old_data = true → is_node g new_data = true →
      replace_node g old_data new_data = .ok (false, g)) ∧
    (is_node g old_data = true → is_node g new_data = false →
      replace_node g old_data new_data =
        .ok (true, { _nodes := nodeInsert new_data (nodeErase old_data g._nodes),
                     _edges := g._edges.map (rewrite_endpoints old_data new_data) }) ∧
      (∀ e,
        (rewrite_endpoints old_data new_data e).src =
          (if e.src = old_data then new_data else e.src) ∧
        (rewrite_endpoints old_data new_data e).dst =
          (if e.dst = old_data then new_data else e.dst) ∧
        (rewrite_endpoints old_data new_data e).is_weighted = e.is_weighted ∧
        (rewrite_endpoints old_data new_data e).get_weight = e.get_weight) ∧
      (∀ v, v ∈ nodeInsert new_data (nodeErase old_data g._nodes) ↔
        (v ∈ g._nodes ∧ v ≠ old_data) ∨ v = new_data)) := by
  refine ⟨fun h1 => ?_, fun h1 h2 => ?_, fun h1 h2 => ⟨?_, fun e => ?_, fun v => ?_⟩⟩
  · simp [replace_node, h1]
  · simp [replace_node, h1, h2]
  · simp [replace_node, h1, h2]
  · cases e <;>
      simp [rewrite_endpoints, Edge.src, Edge.dst, Edge.is_weighted, Edge.get_weight]
  · rw [mem_nodeInsert, mem_nodeErase]
    tauto

/-- Closed witness for C4: the spec example `replace_node(1, 3)` with an
edge out of node 1. -/
theorem C4_replace_node_correct_witness :
    replace_node { _nodes := [1, 2], _edges := [Edge.weighted_edge 1 2 7] } 1 3 =
      .ok (true, { _nodes := [2, 3], _edges := [Edge.weighted_edge 3 2 7] }) :=
  ((C4_replace_node_correct { _nodes := [1, 2], _edges := [Edge.weighted_edge 1 2 7] } 1 3).2.2
    (by decide) (by decide)).1

/-- C5: `erase_edge` errors when either endpoint is missing; otherwise the
matching predicate singles out exactly the record (src, dst, unweighted |
weighted-with-this-weight), so under invariant 2 (a duplicate-free store) at
most one edge matches: the call removes that unique edge and returns
`true`, or returns `false` leaving the graph unchanged when none exists. -/
theorem C5_erase_edge_correct (g : Graph) (src dst : Int) (w : Option Int) :
    (¬(is_node g src = true ∧ is_node g dst = true) →
      erase_edge g src dst w =
        .error "Cannot call gdwg::graph<N, E>::erase_edge on src or dst if they don't exist in the graph") ∧
    (is_node g src = true → is_node g dst = true →
      (∀ e, edge_matches src dst w e = true ↔ e = mkEdge src dst w) ∧
      (mkEdge src dst w ∉ g._edges → erase_edge g src dst w = .ok (false, g)) ∧
      (g._edges.Nodup → mkEdge src dst w ∈ g._edges →
        erase_edge g src dst w =
          .ok (true, { g with _edges := g._edges.erase (mkEdge src dst w) }))) := by
  have hchar : ∀ e, edge_matches src dst w e = true ↔ e = mkEdge src dst w := by
    intro e
    cases e <;> cases w <;>
      simp [edge_matches, mkEdge, Edge.src, Edge.dst, Edge.is_weighted, Edge.get_weight] <;>
      tauto
  constructor
  · intro h
    have hcond : (!is_node g src || !is_node g dst) = true := by
      rcases Decidable.not_and_iff_or_not.mp h with h' | h' <;> simp_all
    simp [erase_edge, hcond]
  · intro hs hd
    have hcond : (!is_node g src || !is_node g dst) = false := by simp [hs, hd]
    have hcharf : ∀ e, edge_matches src dst w e = false ↔ e ≠ mkEdge src dst w := by
      intro e
      have h := hchar e
      cases hb : edge_matches src dst w e <;> simp_all
    refine ⟨hchar, fun hmem => ?_, fun hnd hmem => ?_⟩
    · have hfix : g._edges.filter (fun e => !edge_matches src dst w e) = g._edges := by
        apply List.filter_eq_self.mpr
        intro e he
        have hne : e ≠ mkEdge src dst w := fun hc => hmem (hc ▸ he)
        simp [(hcharf e).mpr hne]
      simp [erase_edge, hcond, hfix]
    · have hfix : g._edges.filter (fun e => !edge_matches src dst w e) =
          g._edges.erase (mkEdge src dst w) := by
        rw [hnd.erase_eq_filter]
        apply List.filter_congr
        intro e _
        rw [Bool.eq_iff_iff]
        simp [hchar e]
        exact (hcharf e)
      have hlen : (g._edges.erase (mkEdge src dst w)).length ≠ g._edges.length := by
        rw [List.length_erase_of_mem hmem]
        have hpos : 0 < g._edges.length := List.length_pos_of_mem hmem
        omega
      simp [erase_edge, hcond, hfix, hlen]

/-- Closed witness for C5: erasing the lone weighted edge of a two-node
graph. -/
theorem C5_erase_edge_correct_witness :
    erase_edge { _nodes := [1, 2], _edges := [Edge.weighted_edge 1 2 5] } 1 2 (some 5) =
      .ok (true, { _nodes := [1, 2], _edges := [] }) :=
  ((C5_erase_edge_correct { _nodes := [1, 2], _edges := [Edge.weighted_edge 1 2 5] }
    1 2 (some 5)).2 (by decide) (by decide)).2.2 (by decide) (by decide)

/-- C6: `erase_node` returns `false` without error when the node is absent;
otherwise it removes the node from the node store and every edge incident
to it from the edge store, returning `true`.  The concrete conjunct is the
spec's cascade example: after erasing node 1 (edge 1→2 present), the edge is
gone and `is_connected(1, 2)` raises the missing-node error. -/
theorem C6_erase_node_correct (g : Graph) (v : Int) :
    (is_node g v = false → erase_node g v = (false, g)) ∧
    (is_node g v = true →
      erase_node g v =
        (true, { _nodes := nodeErase v g._nodes,
                 _edges := g._edges.filter (fun e => !(e.src == v || e.dst == v)) }) ∧
      (∀ x, x ∈ nodeErase v g._nodes ↔ x ∈ g._nodes ∧ x ≠ v) ∧
      (∀ e, e ∈ g._edges.filter (fun e => !(e.src == v || e.dst == v)) ↔
        e ∈ g._edges ∧ e.src ≠ v ∧ e.dst ≠ v)) ∧
    (erase_node { _nodes := [1, 2], _edges := [Edge.unweighted_edge 1 2] } 1 =
        (true, { _nodes := [2], _edges := [] }) ∧
      is_connected { _nodes := [2], _edges := [] } 1 2 =
        .error "Cannot call gdwg::graph<N, E>::is_connected if src or dst node don't exist in the graph") := by
  refine ⟨fun h1 => ?_, fun h1 => ⟨?_, fun x => ?_, fun e => ?_⟩, rfl, rfl⟩
  · simp [erase_node, h1]
  · simp [erase_node, h1]
  · exact mem_nodeErase
  · simp [List.mem_filter]

/-- Closed witness for C6 at a singleton-edge graph. -/
theorem C6_erase_node_correct_witness :
    erase_node { _nodes := [1, 2], _edges := [Edge.unweighted_edge 1 2] } 1 =
      (true, { _nodes := [2], _edges := [] }) :=
  ((C6_erase_node_correct { _nodes := [1, 2], _edges := [Edge.unweighted_edge 1 2] } 1).2.1
    (by decide)).1

/-- The spec example for C3 before the merge: nodes 1, 2, 3 and edges
(1→2, 10), (1→3, 15). -/
def mergeExampleIn : Graph :=
  { _nodes := [1, 2, 3], _edges := [Edge.weighted_edge 1 2 10, Edge.weighted_edge 1 3 15] }

/-- The spec example for C3 after `merge_replace_node(1, 2)`. -/
def mergeExampleOut : Graph :=
  { _nodes := [2, 3], _edges := [Edge.weighted_edge 2 2 10, Edge.weighted_edge 2 3 15] }

/-- A C3 input on which the merge would form a duplicate: edges 1→2 and
2→2, both unweighted, then `merge_replace_node(1, 2)`. -/
def mergeDupIn : Graph :=
  { _nodes := [1, 2], _edges := [Edge.unweighted_edge 1 2, Edge.unweighted_edge 2 2] }

/-- After merging `mergeDupIn`, the duplicate 2→2 collapses to one record. -/
def mergeDupOut : Graph :=
  { _nodes := [2], _edges := [Edge.unweighted_edge 2 2] }

/-- C3: `merge_replace_node` errors (graph untouched) when either node is
missing; otherwise it rewrites every endpoint equal to `old_data` into
`new_data`, removes `old_data` from the node store, sorts the edge store
and collapses structurally equal records into one, never failing.  The
concrete conjuncts replay the spec example — edges (1→2, 10), (1→3, 15),
then `merge_replace_node(1, 2)` — and a run where a duplicate would form
and is collapsed. -/
theorem C3_merge_replace_node_correct (g : Graph) (old_data new_data : Int) :
    (¬(is_node g old_data = true ∧ is_node g new_data = true) →
      merge_replace_node g old_data new_data =
        .error "Cannot call gdwg::graph<N, E>::merge_replace_node on old or new data if they don't exist in the graph") ∧
    (is_node g old_data = true → is_node g new_data = true →
      ∃ g', merge_replace_node g old_data new_data = Except.ok g' ∧
        g'._nodes = nodeErase old_data g._nodes ∧
        (∀ e, e ∈ g'._edges ↔ e ∈ g._edges.map (rewrite_endpoints old_data new_data)) ∧
        g'._edges.Sorted edge_le ∧
        g'._edges.Nodup) ∧
    (merge_replace_node mergeExampleIn 1 2 = Except.ok mergeExampleOut ∧
      is_node mergeExampleOut 1 = false ∧
      is_connected mergeExampleOut 2 3 = Except.ok true ∧
      merge_replace_node mergeDupIn 1 2 = Except.ok mergeDupOut) := by
  refine ⟨fun h => ?_, fun h1 h2 => ?_, rfl, rfl, rfl, rfl⟩
  · have hcond : (!is_node g old_data || !is_node g new_data) = true := by
      rcases Decidable.not_and_iff_or_not.mp h with h' | h' <;> simp_all
    simp [merge_replace_node, hcond]
  · have hcond : (!is_node g old_data || !is_node g new_data) = false := by simp [h1, h2]
    refine ⟨{ _nodes := nodeErase old_data g._nodes,
              _edges := dedupAdjacent (sortEdges
                (g._edges.map (rewrite_endpoints old_data new_data))) },
            ?_, rfl, fun e => ?_, ?_, ?_⟩
    · simp [merge_replace_node, hcond]
    · rw [mem_dedupAdjacent, mem_sortEdges]
    · exact dedupAdjacent_sorted (sortEdges_sorted _)
    · exact dedupAdjacent_nodup (sortEdges_sorted _)

/-- Closed witness for C3: the missing-node error at the empty graph. -/
theorem C3_merge_replace_node_correct_witness :
    merge_replace_node { _nodes := [], _edges := [] } 0 1 =
      .error "Cannot call gdwg::graph<N, E>::merge_replace_node on old or new data if they don't exist in the graph" :=
  (C3_merge_replace_node_correct { _nodes := [], _edges := [] } 0 1).1 (by decide)

/-- The C1 counterexample input: nodes 1 and 3 with the sorted store of
self-loops [1→1, 3→3]; reachable by two `insert_edge` calls. -/
def replaceUnsortedIn : Graph :=
  { _nodes := [1, 3], _edges := [Edge.unweighted_edge 1 1, Edge.unweighted_edge 3 3] }

/-- What `replace_node(1, 4)` on `replaceUnsortedIn` produces: endpoints
rewritten in place, store now [4→4, 3→3]. -/
def replaceUnsortedOut : Graph :=
  { _nodes := [3, 4], _edges := [Edge.unweighted_edge 4 4, Edge.unweighted_edge 3 3] }

/-- The order in which `operator<<` visits edges: one pass per node of the
node store, streaming the node's outgoing unweighted edges and then its
outgoing weighted edges, each group in store order (the single loop over
`_edges` pushes the two groups into two vectors that are then written
out).  The filters are the same two used by `node_block`. -/
def print_order (g : Graph) : List Edge :=
  g._nodes.flatMap (fun node =>
    g._edges.filter (fun e => e.src == node && !e.is_weighted) ++
    g._edges.filter (fun e => e.src == node && e.is_weighted))

theorem mem_print_order {g : Graph} {e : Edge} :
    e ∈ print_order g ↔ e.src ∈ g._nodes ∧ e ∈ g._edges := by
  simp only [print_order, List.mem_flatMap, List.mem_append, List.mem_filter,
    Bool.and_eq_true, beq_iff_eq, Bool.not_eq_true']
  constructor
  · rintro ⟨node, hn, ⟨he, hsrc, _⟩ | ⟨he, hsrc, _⟩⟩ <;> exact ⟨hsrc ▸ hn, he⟩
  · rintro ⟨hn, he⟩
    refine ⟨e.src, hn, ?_⟩
    cases hw : e.is_weighted
    · exact Or.inl ⟨he, rfl, rfl⟩
    · exact Or.inr ⟨he, rfl, rfl⟩

/-- The C1 printing counterexample before the insertion: nodes 1, 2, 4 and
the single weighted edge (2→1, 1). -/
def printOrderIn : Graph :=
  { _nodes := [1, 2, 4], _edges := [Edge.weighted_edge 2 1 1] }

/-- After `insert_edge(2, 4)` on `printOrderIn`: the sorted store
[(2→1, W, 1), (2→4, U)]. -/
def printOrderOut : Graph :=
  { _nodes := [1, 2, 4], _edges := [Edge.weighted_edge 2 1 1, Edge.unweighted_edge 2 4] }

/-- C1 counterexample, in two parts.  (1) The claim includes `replace_node`
among the operations after which the Edge Store is sorted, but
`replace_node` rewrites endpoints in place without re-sorting: starting
from a sorted store, with both preconditions of `replace_node(1, 4)`
satisfied (1 is a node, 4 is not), the call succeeds and leaves the store
`[4→4, 3→3]`, which is not sorted.  (2) The claim says the store order is
the order in which printing visits edges, but printing groups each node's
lines unweighted-before-weighted: after `insert_edge(2, 4)` returns with
the sorted store [(2→1, W, 1), (2→4, U)], printing visits (2→4, U) first —
`print_order` differs from the store, and the rendered text shows the
`2 -> 4 | U` line above the `2 -> 1 | W | 1` line. -/
theorem C1_counterexample :
    (replace_node replaceUnsortedIn 1 4 = .ok (true, replaceUnsortedOut) ∧
      replaceUnsortedIn._edges.Sorted edge_le ∧
      ¬ replaceUnsortedOut._edges.Sorted edge_le) ∧
    (insert_edge printOrderIn 2 4 none = .ok (true, printOrderOut) ∧
      printOrderOut._edges.Sorted edge_le ∧
      print_order printOrderOut = [Edge.unweighted_edge 2 4, Edge.weighted_edge 2 1 1] ∧
      print_order printOrderOut ≠ printOrderOut._edges ∧
      gdwg_print printOrderOut =
        "\n1 (\n)\n2 (\n  2 -> 4 | U\n  2 -> 1 | W | 1\n)\n4 (\n)\n") :=
  ⟨⟨rfl, by decide, by decide⟩, ⟨rfl, by decide, rfl, by decide, rfl⟩⟩

/-- C1 (amended): after each of `insert_edge`, `merge_replace_node`,
`erase_node`, `erase_edge` and `clear` — but not `replace_node`, which may
leave the store unsorted — a sorted Edge Store stays sorted by src, then
dst, then unweighted-before-weighted, then weight; iteration visits
exactly the store's records, in the store's order; and printing visits,
for each node of the node store in order, exactly that node's outgoing
stored edges, its unweighted ones and then its weighted ones, each group
in store order — not the store order globally. -/
theorem C1_amended_sorted_after_ops (g : Graph) (src dst a b v : Int) (w : Option Int)
    (h : g._edges.Sorted edge_le) :
    (∀ ok g', insert_edge g src dst w = .ok (ok, g') → g'._edges.Sorted edge_le) ∧
    (∀ g', merge_replace_node g a b = .ok g' → g'._edges.Sorted edge_le) ∧
    (∀ ok g', erase_node g v = (ok, g') → g'._edges.Sorted edge_le) ∧
    (∀ ok g', erase_edge g src dst w = .ok (ok, g') → g'._edges.Sorted edge_le) ∧
    (Graph.clear g)._edges.Sorted edge_le ∧
    (∀ g' : Graph, iter_list g' = g'._edges.map (fun e => (e.src, e.dst, e.get_weight))) ∧
    (∀ g' : Graph, print_order g' =
      g'._nodes.flatMap (fun node =>
        g'._edges.filter (fun e => e.src == node && !e.is_weighted) ++
        g'._edges.filter (fun e => e.src == node && e.is_weighted))) ∧
    (∀ g' : Graph, ∀ e, e ∈ print_order g' ↔ e.src ∈ g'._nodes ∧ e ∈ g'._edges) := by
  refine ⟨fun ok g' heq => ?_, fun g' heq => ?_, fun ok g' heq => ?_, fun ok g' heq => ?_,
    by simp [Graph.clear], fun g' => rfl, fun g' => rfl, fun g' e => mem_print_order⟩
  · by_cases hc : (!is_node g src || !is_node g dst) = true
    · simp [insert_edge, hc] at heq
    · rw [Bool.not_eq_true] at hc
      by_cases ha : (g._edges.any fun e => e == mkEdge src dst w) = true
      · simp [insert_edge, hc, ha] at heq
        rw [← heq.2]
        exact h
      · rw [Bool.not_eq_true] at ha
        simp [insert_edge, hc, ha] at heq
        rw [← heq.2]
        exact sortEdges_sorted _
  · by_cases hc : (!is_node g a || !is_node g b) = true
    · simp [merge_replace_node, hc] at heq
    · rw [Bool.not_eq_true] at hc
      simp [merge_replace_node, hc] at heq
      rw [← heq]
      exact dedupAdjacent_sorted (sortEdges_sorted _)
  · by_cases hc : (!is_node g v) = true
    · simp [erase_node, hc] at heq
      rw [← heq.2]
      exact h
    · rw [Bool.not_eq_true] at hc
      simp [erase_node, hc] at heq
      rw [← heq.2]
      exact h.filter _
  · by_cases hc : (!is_node g src || !is_node g dst) = true
    · simp [erase_edge, hc] at heq
    · rw [Bool.not_eq_true] at hc
      by_cases hl : (g._edges.filter (fun e => !edge_matches src dst w e)).length =
          g._edges.length
      · simp [erase_edge, hc, hl] at heq
        rw [← heq.2]
        exact h
      · simp [erase_edge, hc, hl] at heq
        rw [← heq.2]
        exact h.filter _

/-- Closed witness for C1 (amended): the store of a two-node graph after a
successful `insert_edge` is sorted. -/
theorem C1_amended_sorted_after_ops_witness :
    List.Sorted edge_le [Edge.weighted_edge 1 2 5] :=
  (C1_amended_sorted_after_ops { _nodes := [1, 2], _edges := [] } 1 2 0 0 0 (some 5)
    (by decide)).1 true { _nodes := [1, 2], _edges := [Edge.weighted_edge 1 2 5] } rfl

theorem partition_length (es : List Edge) :
    es.length = (unweighted_list es).length + (weighted_list es).length := by
  induction es with
  | nil => rfl
  | cons e tl ih =>
    cases e <;>
      simp [unweighted_list, weighted_list, List.filter_cons, List.filterMap_cons,
        Edge.is_weighted] at ih ⊢ <;>
      omega

/-- Harness for the C8 example: a caller performing `insert_edge` and
keeping whichever graph results (ignoring the returned flag). -/
def insert_edge_state (g : Graph) (src dst : Int) (w : Option Int) : Graph :=
  match insert_edge g src dst w with
  | .ok (_, g') => g'
  | .error _ => g

/-- C8 example: nodes and weighted edges (1→2, 5), (2→1, 3) inserted in one
order. -/
def eqBuildA : Graph :=
  insert_edge_state (insert_edge_state (graph_init_list [1, 2]) 1 2 (some 5)) 2 1 (some 3)

/-- C8 example: the same nodes and edges inserted in the opposite order. -/
def eqBuildB : Graph :=
  insert_edge_state (insert_edge_state (graph_init_list [2, 1]) 2 1 (some 3)) 1 2 (some 5)

/-- C8 example: `eqBuildA` with one extra edge inserted. -/
def eqBuildC : Graph := insert_edge_state eqBuildA 1 2 (some 99)

/-- C8: two graphs are equal exactly when their node stores hold the same
values and their edge stores, partitioned into the unweighted (src, dst)
sequence and the weighted (src, dst, weight) sequence in storage order, are
pairwise equal (the source's length shortcut is subsumed by the partition
comparison); building the same nodes and edges in different orders yields
equal graphs, and one extra edge breaks equality either way. -/
theorem C8_graph_equality (g h : Graph) :
    (graph_eq g h = true ↔
      g._nodes = h._nodes ∧
      unweighted_list g._edges = unweighted_list h._edges ∧
      weighted_list g._edges = weighted_list h._edges) ∧
    (graph_eq eqBuildA eqBuildB = true ∧
      graph_eq eqBuildA eqBuildC = false ∧
      graph_eq eqBuildC eqBuildA = false) := by
  refine ⟨?_, by decide, by decide, by decide⟩
  constructor
  · intro hq
    by_cases h1 : g._nodes = h._nodes ∧ g._edges.length = h._edges.length
    · by_cases h2 : unweighted_list g._edges = unweighted_list h._edges ∧
          weighted_list g._edges = weighted_list h._edges
      · exact ⟨h1.1, h2.1, h2.2⟩
      · rw [graph_eq, if_neg, if_pos] at hq
        · exact absurd hq (by simp)
        · rcases Decidable.not_and_iff_or_not.mp h2 with h' | h' <;> simp [h']
        · simp [h1.1, h1.2]
    · rw [graph_eq, if_pos] at hq
      · exact absurd hq (by simp)
      · rcases Decidable.not_and_iff_or_not.mp h1 with h' | h' <;> simp [h']
  · rintro ⟨hn, hu, hw⟩
    have hlen : g._edges.length = h._edges.length := by
      rw [partition_length g._edges, partition_length h._edges, hu, hw]
    rw [graph_eq, if_neg, if_neg]
    · simp [hu, hw]
    · simp [hn, hlen]

/-- Weight-only comparison of rendered edges, as the C9 claim reads
("weighted edges ascending by weight"). -/
def weight_le (a b : Edge) : Prop := optLt b.get_weight a.get_weight = false

instance : DecidableRel weight_le := fun a b =>
  inferInstanceAs (Decidable (optLt b.get_weight a.get_weight = false))

/-- Destination comparison for a node's unweighted lines. -/
def dst_le (a b : Edge) : Prop := a.dst ≤ b.dst

instance : DecidableRel dst_le := fun a b => inferInstanceAs (Decidable (a.dst ≤ b.dst))

/-- Destination-then-weight comparison for a node's weighted lines. -/
def dw_le (a b : Edge) : Prop :=
  a.dst < b.dst ∨ (a.dst = b.dst ∧ a.get_weight.getD 0 ≤ b.get_weight.getD 0)

instance : DecidableRel dw_le := fun a b =>
  inferInstanceAs (Decidable (a.dst < b.dst ∨ (a.dst = b.dst ∧ _ ≤ _)))

/-- The rendering the C9 claim describes, taken at its word: per node
ascending, the node label and `" (\n"`, the indented unweighted lines, then
the weighted lines ASCENDING BY WEIGHT, then `")\n"`; a leading newline
opens the output. -/
def claim_render (g : Graph) : String :=
  "\n" ++ String.join (g._nodes.map (fun node =>
    let unweighted_edges := (g._edges.filter (fun e => e.src == node && !e.is_weighted)).map
      (fun e => "  " ++ e.print_edge ++ "\n")
    let weighted_edges :=
      ((g._edges.filter (fun e => e.src == node && e.is_weighted)).insertionSort weight_le).map
      (fun e => "  " ++ e.print_edge ++ "\n")
    toString node ++ " (\n" ++ String.join unweighted_edges ++ String.join weighted_edges
      ++ ")\n"))

/-- The rendering of the AMENDED C9 claim: per node ascending, unweighted
lines ascending by destination, then weighted lines ascending by
destination and then weight (the store order), everything else as the
claim states. -/
def spec_render (g : Graph) : String :=
  "\n" ++ String.join (g._nodes.map (fun node =>
    let unweighted_edges :=
      ((g._edges.filter (fun e => e.src == node && !e.is_weighted)).insertionSort dst_le).map
      (fun e => "  " ++ e.print_edge ++ "\n")
    let weighted_edges :=
      ((g._edges.filter (fun e => e.src == node && e.is_weighted)).insertionSort dw_le).map
      (fun e => "  " ++ e.print_edge ++ "\n")
    toString node ++ " (\n" ++ String.join unweighted_edges ++ String.join weighted_edges
      ++ ")\n"))

theorem edge_le_unweighted_iff {s d d' : Int} :
    edge_le (.unweighted_edge s d) (.unweighted_edge s d') ↔ d ≤ d' := by
  rw [edge_le_iff]
  simp [Edge.key, Prod.Lex.le_iff, Prod.Lex.lt_iff]
  omega

theorem edge_le_weighted_iff {s d w d' w' : Int} :
    edge_le (.weighted_edge s d w) (.weighted_edge s d' w') ↔
      (d < d' ∨ (d = d' ∧ w ≤ w')) := by
  rw [edge_le_iff]
  simp [Edge.key, Prod.Lex.le_iff, Prod.Lex.lt_iff]

/-- The graph of the C9 counterexample: node 1 has weighted edges to 2
(weight 10) and to 3 (weight 5); the store is sorted (dst ascending), so
printing emits weight 10 before weight 5. -/
def printExample : Graph :=
  { _nodes := [1, 2, 3], _edges := [Edge.weighted_edge 1 2 10, Edge.weighted_edge 1 3 5] }

/-- C9 counterexample: printing walks weighted lines in store order (dst
ascending, then weight), not ascending by weight.  On `printExample` the
code prints `1 -> 2 | W | 10` before `1 -> 3 | W | 5`, while the claim's
weight-ascending order would reverse them, so the two renderings differ.
The store of `printExample` is sorted, and nodes 2, 3 still render their
empty `"( … )"` blocks after the claim's leading newline. -/
theorem C9_counterexample :
    printExample._edges.Sorted edge_le ∧
    gdwg_print printExample =
      "\n1 (\n  1 -> 2 | W | 10\n  1 -> 3 | W | 5\n)\n2 (\n)\n3 (\n)\n" ∧
    claim_render printExample =
      "\n1 (\n  1 -> 3 | W | 5\n  1 -> 2 | W | 10\n)\n2 (\n)\n3 (\n)\n" ∧
    gdwg_print printExample ≠ claim_render printExample := by
  refine ⟨by decide, rfl, rfl, by decide⟩

/-- C9 (amended): on a graph whose store is sorted (the maintained
invariant), the text rendering is exactly: a leading newline, then for each
node in node-store (ascending) order its label, `" (\n"`, the indented
unweighted edge lines ascending by destination, the indented weighted edge
lines ascending by destination then weight, and `")\n"`; a node with no
outgoing edges keeps its empty block; `print_edge` renders
`"src -> dst | U"` and `"src -> dst | W | weight"`. -/
theorem C9_amended_print (g : Graph) (h : g._edges.Sorted edge_le) :
    gdwg_print g = spec_render g := by
  unfold gdwg_print spec_render node_block
  refine congrArg ("\n" ++ ·) (congrArg String.join (List.map_congr_left ?_))
  intro node _
  have hu : (g._edges.filter (fun e => e.src == node && !e.is_weighted)).Sorted dst_le := by
    refine (h.filter _).imp_of_mem ?_
    intro a b ha hb hab
    have hpa := (List.mem_filter.mp ha).2
    have hpb := (List.mem_filter.mp hb).2
    simp only [Bool.and_eq_true, beq_iff_eq, Bool.not_eq_true'] at hpa hpb
    cases a with
    | weighted_edge s d w => simp [Edge.is_weighted] at hpa
    | unweighted_edge s d =>
      cases b with
      | weighted_edge s' d' w' => simp [Edge.is_weighted] at hpb
      | unweighted_edge s' d' =>
        have hs : s = s' := by
          rw [show s = Edge.src (.unweighted_edge s d) from rfl, hpa.1,
            show s' = Edge.src (.unweighted_edge s' d') from rfl, hpb.1]
        subst hs
        exact edge_le_unweighted_iff.mp hab
  have hw : (g._edges.filter (fun e => e.src == node && e.is_weighted)).Sorted dw_le := by
    refine (h.filter _).imp_of_mem ?_
    intro a b ha hb hab
    have hpa := (List.mem_filter.mp ha).2
    have hpb := (List.mem_filter.mp hb).2
    simp only [Bool.and_eq_true, beq_iff_eq] at hpa hpb
    cases a with
    | unweighted_edge s d => simp [Edge.is_weighted] at hpa
    | weighted_edge s d w =>
      cases b with
      | unweighted_edge s' d' => simp [Edge.is_weighted] at hpb
      | weighted_edge s' d' w' =>
        have hs : s = s' := by
          rw [show s = Edge.src (.weighted_edge s d w) from rfl, hpa.1,
            show s' = Edge.src (.weighted_edge s' d' w') from rfl, hpb.1]
        subst hs
        have := edge_le_weighted_iff.mp hab
        simp only [dw_le, Edge.dst, Edge.get_weight, Option.getD_some]
        exact this
  rw [hu.insertionSort_eq, hw.insertionSort_eq]

/-- Closed witness for C9 (amended): the code's rendering of the
counterexample graph agrees with the amended description. -/
theorem C9_amended_print_witness :
    gdwg_print printExample = spec_render printExample :=
  C9_amended_print printExample (by decide)

end gdwg
